import Mathlib

/-
Verification of the k-anonymity generalization and suppression engine of
src/Lab2/src/anonymize.py, as a shallow embedding in Lean 4.

Modelling conventions:
* A pandas DataFrame in the uniqueness/suppression part is a `Df α`:
  the list of data-row tuples (one `α` per row; `α` stands for the tuple of
  all data-column values) together with the optional derived column
  `uniqueness` (`Option (List Nat)`, `none` when the column is absent).
* Numeric cell values are `Option Rat` (`none` is NaN after `pd.to_numeric`
  with `errors = coerce`); exact rationals replace IEEE floats, and Python
  `round` (half to even) is modelled exactly on rationals.
* `df.sort_values(by = uniqueness)` uses the default quicksort, which the
  pandas documentation marks as not stable, so the only guarantee is a
  permutation of the indexed rows that is non-decreasing in the uniqueness
  value; `IsSortedByUniq` captures exactly that guarantee, and the
  executable `sortedByUniq` fixes one admissible tie order (original index
  order) for concrete runs.
* `pd.cut(x, bins, labels, include_lowest = True)` puts a value `v` into the
  first interval `[b0, b1]` when `b0 <= v <= b1`, into `(bi, bi+1]` for the
  later intervals, and maps everything else (including the case of a single
  bin edge, which yields zero intervals) to null.
* `df.groupby(cols)` (default `dropna = True`) drops every row whose key
  holds a null; `groupby(all columns).transform(size)` is the per-row count
  of rows sharing the full key tuple.
-/

namespace Anonymize

/-- A DataFrame for the uniqueness/suppression functions: the data rows plus
the optional derived `uniqueness` column (absent when `uniq = none`). -/
structure Df (α : Type) where
  rows : List α
  uniq : Option (List Nat)
deriving DecidableEq, Repr

variable {α : Type} [DecidableEq α]

/-- The full grouping key of each row, as used by
`df.groupby(df.columns.tolist())` in `calculate_row_uniqueness`: the data
tuple together with the current value of the `uniqueness` column when that
column is already present. -/
def rowKeys (df : Df α) : List (α × Option Nat) :=
  match df.uniq with
  | none => df.rows.map (fun r => (r, none))
  | some us => df.rows.zip (us.map some)

/-- The new `uniqueness` column: for each row, the size of its group under
the full key (`groupby(...).transform(size)`). -/
def uniquenessColumn (df : Df α) : List Nat :=
  (rowKeys df).map (fun k => (rowKeys df).count k)

/-- `calculate_row_uniqueness` (anonymize.py lines 57-77), the DataFrame
mutation: writes the recomputed `uniqueness` column into the frame. -/
def calculate_row_uniqueness (df : Df α) : Df α :=
  { rows := df.rows, uniq := some (uniquenessColumn df) }

/-- The `k_anonymity` metric returned by `calculate_row_uniqueness`:
the minimum of the freshly recomputed `uniqueness` column. -/
def k_anonymity (df : Df α) : WithTop Nat :=
  (uniquenessColumn df).minimum

/-- `int(total_rows * (percentage / 100))` from `remove_rows_by_uniqueness`:
with exact rational arithmetic and a nonnegative percentage this is the
floor of `n * p / 100`. -/
def rows_to_remove (n : Nat) (p : Rat) : Nat :=
  (Int.floor ((n : Rat) * (p / 100))).toNat

/-- Sort key order for `df.sort_values(by = uniqueness)` on index/value
pairs: ascending uniqueness, ties kept in original index order (stable
sort). -/
def uniqLe (a b : Nat × Nat) : Prop :=
  a.2 < b.2 ∨ (a.2 = b.2 ∧ a.1 ≤ b.1)

instance : DecidableRel uniqLe := fun a b => by
  unfold uniqLe; infer_instance

instance : IsTotal (Nat × Nat) uniqLe := by
  constructor
  intro a b
  rcases Nat.lt_trichotomy a.2 b.2 with h | h | h
  · exact Or.inl (Or.inl h)
  · rcases Nat.le_total a.1 b.1 with h1 | h1
    · exact Or.inl (Or.inr ⟨h, h1⟩)
    · exact Or.inr (Or.inr ⟨h.symm, h1⟩)
  · exact Or.inr (Or.inl h)

instance : IsTrans (Nat × Nat) uniqLe := by
  constructor
  intro a b c hab hbc
  rcases hab with h1 | ⟨h1, h1i⟩
  · rcases hbc with h2 | ⟨h2, _⟩
    · exact Or.inl (h1.trans h2)
    · exact Or.inl (h2 ▸ h1)
  · rcases hbc with h2 | ⟨h2, h2i⟩
    · exact Or.inl (h1 ▸ h2)
    · exact Or.inr ⟨h1.trans h2, h1i.trans h2i⟩

/-- One admissible result of `df_sorted = df.sort_values(by =
uniqueness)`, represented as (original index, uniqueness) pairs: sorted by
uniqueness with ties in original index order.  The default quicksort of
the library promises no particular tie order; `IsSortedByUniq` below
describes every result it may return, and this executable instance is
used for concrete runs. -/
def sortedByUniq (us : List Nat) : List (Nat × Nat) :=
  List.insertionSort uniqLe us.enum

/-- The original indices of `df_to_remove = df_sorted.head(k)`. -/
def removedIdx (us : List Nat) (k : Nat) : List Nat :=
  ((sortedByUniq us).take k).map (fun x => x.1)

/-- `df.drop(df_to_remove.index)`: keep, in original order, the entries
whose position (counted from `i`) is not in `removed`. -/
def dropIdxFrom (removed : List Nat) : Nat → List β → List β
  | _, [] => []
  | i, x :: xs =>
    if i ∈ removed then dropIdxFrom removed (i + 1) xs
    else x :: dropIdxFrom removed (i + 1) xs

/-- `remove_rows_by_uniqueness` (anonymize.py lines 325-352): raises when
the `uniqueness` column is absent, otherwise removes the
`int(total_rows * percentage / 100)` rows with smallest uniqueness
(remaining rows keep their original order, and the stale `uniqueness`
column stays in the frame). -/
def remove_rows_by_uniqueness (df : Df α) (percentage : Rat) :
    Except String (Df α) :=
  match df.uniq with
  | none => .error "Столбец uniqueness не найден. Пожалуйста, сначала рассчитайте уникальность строк."
  | some us =>
    let k := rows_to_remove df.rows.length percentage
    let removed := removedIdx us k
    .ok { rows := dropIdxFrom removed 0 df.rows
          uniq := some (dropIdxFrom removed 0 us) }

/-- What `df.sort_values(by = uniqueness)` guarantees about its result and
nothing more: a permutation of the indexed rows that is non-decreasing in
the uniqueness value.  The default sort kind is quicksort, which the
pandas documentation marks as not stable, so the order among equal
uniqueness values is implementation-defined. -/
def IsSortedByUniq (us : List Nat) (df_sorted : List (Nat × Nat)) : Prop :=
  df_sorted.Perm us.enum
    ∧ df_sorted.Sorted (fun a b => a.2 ≤ b.2)

/-- `remove_rows_by_uniqueness` (anonymize.py lines 325-352) with the
result of `df.sort_values(by = uniqueness)` supplied explicitly, so that
statements can range over every sorted order the unstable sort may
produce; `remove_rows_by_uniqueness` itself is this function applied to
the one admissible order `sortedByUniq` realises. -/
def remove_rows_by_uniqueness_any (df : Df α) (percentage : Rat)
    (df_sorted : List (Nat × Nat)) : Except String (Df α) :=
  match df.uniq with
  | none => .error "Столбец uniqueness не найден. Пожалуйста, сначала рассчитайте уникальность строк."
  | some us =>
    let k := rows_to_remove df.rows.length percentage
    let removed := (df_sorted.take k).map (fun x => x.1)
    .ok { rows := dropIdxFrom removed 0 df.rows
          uniq := some (dropIdxFrom removed 0 us) }

/-- `mask` (anonymize.py lines 194-199): `df[column_name] = '******'`
replaces every entry of the named column with the mask token.  A frame is
viewed here as a map from column names to columns. -/
def mask (df : String → List String) (column_name : String) :
    String → List String :=
  fun c =>
    if c = column_name then (df column_name).map (fun _ => "******")
    else df c

/-- `categorize_distance` (anonymize.py lines 152-160), verbatim: note that
the second branch repeats the `distance <= 6` test of the first. -/
def categorize_distance (distance : Option Rat) : String :=
  match distance with
  | none => "Неизвестно"
  | some d =>
    if d ≤ 6 then "До 4 км от Дворцовой площади (Санкт-Петербург)"
    else if d ≤ 6 then "Более 4 км, но до 8 км от Дворцовой площади (Санкт-Петербург)"
    else "Более 8 км от Дворцовой площади (Санкт-Петербург)"

/-- Python `round` to the nearest integer, halves to even (banker's
rounding), on exact rationals. -/
def pyRound (x : Rat) : Int :=
  let f := Int.floor x
  let r := x - f
  if r < 1 / 2 then f
  else if 1 / 2 < r then f + 1
  else if f % 2 = 0 then f else f + 1

/-- One step of `beautify_boundaries` (anonymize.py lines 281-309):
magnitude-dependent rounding of a single boundary. -/
def beautify_one (b : Rat) : Rat :=
  if b = 0 then 0
  else if b < 1 then (pyRound (10 * b) : Rat) / 10
  else if b < 10 then (pyRound b : Rat)
  else if b < 100 then 5 * (pyRound (b / 5) : Rat)
  else if b < 1000 then 50 * (pyRound (b / 50) : Rat)
  else 500 * (pyRound (b / 500) : Rat)

/-- `beautify_boundaries` (anonymize.py lines 281-309). -/
def beautify_boundaries (boundaries : List Rat) : List Rat :=
  boundaries.map beautify_one

/-- `Series.quantile(q)` with the default linear interpolation, on the
already sorted list of valid values. -/
def quantileOfSorted (s : List Rat) (q : Rat) : Rat :=
  let h := q * ((s.length : Rat) - 1)
  let f := (Int.floor h).toNat
  let a := s.getD f 0
  let b := s.getD (f + 1) a
  a + (h - Int.floor h) * (b - a)

/-- `valid_values.quantile([i / N for i in range(N + 1)])`
(anonymize.py lines 250-252). -/
def quantile_points (valid : List Rat) (num_categories : Nat) : List Rat :=
  let s := valid.insertionSort (· ≤ ·)
  (List.range (num_categories + 1)).map
    (fun (i : Nat) =>
      quantileOfSorted s ((i : Rat) / (num_categories : Rat)))

/-- `sorted(set(boundaries))`. -/
def sortedDedup (l : List Rat) : List Rat :=
  l.dedup.insertionSort (· ≤ ·)

/-- The loop body of `ensure_increasing`, carrying the already rewritten
previous boundary. -/
def ensureFrom (prev : Rat) : List Rat → List Rat
  | [] => []
  | y :: ys =>
    let y2 := if y ≤ prev then prev + 1 / 1000000 else y
    y2 :: ensureFrom y2 ys

/-- `ensure_increasing` (anonymize.py lines 312-322): nudge every
non-increasing successor up by `1e-6`. -/
def ensure_increasing : List Rat → List Rat
  | [] => []
  | x :: xs => x :: ensureFrom x xs

/-- `if boundaries[0] > min_value: boundaries[0] = min_value`
(anonymize.py line 263). -/
def clampHead (mn : Rat) : List Rat → List Rat
  | [] => []
  | a :: rest => (if mn < a then mn else a) :: rest

/-- `if boundaries[-1] < max_value: boundaries[-1] = max_value`
(anonymize.py line 265), applied after the first clamp. -/
def clampLast (mx : Rat) : List Rat → List Rat
  | [] => []
  | [a] => [if a < mx then mx else a]
  | a :: b :: rest => a :: clampLast mx (b :: rest)

/-- `valid_values.min()`. -/
def listMin : List Rat → Rat
  | [] => 0
  | x :: xs => xs.foldl min x

/-- `valid_values.max()`. -/
def listMax : List Rat → Rat
  | [] => 0
  | x :: xs => xs.foldl max x

/-- The boundary list built inside `generalize_column`
(anonymize.py lines 250-266): quantile points, beautified, deduplicated
and sorted, monotonicity-enforced, then clamped to the data range. -/
def boundaries_of (valid : List Rat) (num_categories : Nat) : List Rat :=
  clampLast (listMax valid)
    (clampHead (listMin valid)
      (ensure_increasing
        (sortedDedup
          (beautify_boundaries (quantile_points valid num_categories)))))

/-- A cell of a generalized column: still numeric, a bucket label, or null
(NaN). -/
inductive GCell : Type
  | num (q : Rat)
  | lab (s : String)
  | null
deriving DecidableEq, Repr

/-- The index search of `pd.cut`: given the remaining bin edges, return the
index of the first interval whose right edge is at least `x`. -/
def cutSearch (x : Rat) (i : Nat) : List Rat → Option Nat
  | [] => none
  | b :: bs => if x ≤ b then some i else cutSearch x (i + 1) bs

/-- `pd.cut(v, bins, include_lowest = True)` membership: the first interval
is `[b0, b1]`, later intervals are left-open; values outside every interval
(including every value when there is a single bin edge) yield null. -/
def cutIndex (x : Rat) : List Rat → Option Nat
  | [] => none
  | b0 :: bs => if x < b0 then none else cutSearch x 0 bs

/-- The f-string labels `"{lower}-{upper}"` of `generalize_column`
(anonymize.py lines 269-273); rationals are printed in place of the
Python float repr. -/
def cutLabels (bs : List Rat) : List String :=
  (bs.zip bs.tail).map (fun p => toString p.1 ++ "-" ++ toString p.2)

/-- `generalize_column` (anonymize.py lines 231-278) on a single numeric
column (the cells are already the result of `pd.to_numeric(...,
errors = coerce)`, so `none` is NaN).  With no valid value the frame is
returned unchanged; otherwise every cell is replaced by the label of its
bucket, null when `pd.cut` puts it in no bucket. -/
def generalize_column (col : List (Option Rat)) (num_categories : Nat) :
    List GCell :=
  let valid := col.filterMap id
  if valid.isEmpty then
    col.map (fun v =>
      match v with
      | some q => GCell.num q
      | none => GCell.null)
  else
    let bs := boundaries_of valid num_categories
    let labels := cutLabels bs
    col.map (fun v =>
      match v with
      | none => GCell.null
      | some q =>
        match cutIndex q bs with
        | none => GCell.null
        | some i =>
          match labels.get? i with
          | some s => GCell.lab s
          | none => GCell.null)

/-- An input record in the generator schema, with values already past the
initial parsing layer: `datetime` is the parsed (year, month) or `none`
when `pd.to_datetime(..., errors = coerce)` fails; coordinates are
`none` when `pd.to_numeric(..., errors = coerce)` fails. -/
structure PRow : Type where
  shop : String
  datetime : Option (Int × Nat)
  lon : Option Rat
  lat : Option Rat
  category : String
  brand : String
  card : String
  qty : Option Rat
  price : Option Rat
deriving DecidableEq, Repr

/-- A record after the full transform chain of `perform_anonymization`. -/
structure ORow : Type where
  shop : String
  datetime : String
  location : String
  category : String
  brand : String
  card : String
  qty : GCell
  price : GCell
deriving DecidableEq, Repr

/-- `anonymize_shop_names` (anonymize.py lines 80-117) on one cell.  The
settings argument is the flattened shop-name-to-category mapping built from
`settings.json`; `none` models the file being absent or unparsable, in
which case the function prints an error and returns the frame unchanged
(it does not abort). -/
def anonymize_shop_names (settings : Option (List (String × String)))
    (shop : String) : String :=
  match settings with
  | none => shop
  | some m =>
    match m.lookup shop with
    | some cat => cat
    | none => "Unknown Category"

/-- `get_season` (anonymize.py lines 176-186). -/
def get_season (month : Nat) : String :=
  if month = 12 ∨ month = 1 ∨ month = 2 then "зима"
  else if month = 3 ∨ month = 4 ∨ month = 5 then "весна"
  else if month = 6 ∨ month = 7 ∨ month = 8 then "лето"
  else if month = 9 ∨ month = 10 ∨ month = 11 then "осень"
  else "Неизвестно"

/-- `anonymize_datetime` (anonymize.py lines 170-191) on one cell. -/
def anonymize_datetime (dt : Option (Int × Nat)) : String :=
  match dt with
  | none => "Неизвестно"
  | some yn => " " ++ toString yn.1 ++ ", " ++ get_season yn.2

/-- `anonymize_location` (anonymize.py lines 120-167) on one record: the
haversine great-circle distance from the reference coordinate is supplied
as an oracle `dist` (its transcendental formula is not reproduced); a
missing coordinate gives a null distance.  The raw coordinate columns are
dropped, only the band remains. -/
def anonymize_location (dist : Rat → Rat → Rat)
    (lat lon : Option Rat) : String :=
  match lat, lon with
  | some la, some lo => categorize_distance (some (dist la lo))
  | _, _ => categorize_distance none

/-- The first six characters of an all-digit card number, as a number
(`int(card_number[:6])`). -/
def binOf (card : String) : Nat :=
  (card.toList.take 6).foldl (fun n c => 10 * n + (c.toNat - 48)) 0

/-- `anonymize_card_number` (anonymize.py lines 202-228) on one cell.  The
binlist argument is the BIN-to-brand table from the csv file; `none` models
the file being absent, in which case the code sets the whole column to
`Неизвестно` and returns (it does not abort). -/
def anonymize_card_number (binlist : Option (List (Nat × String)))
    (card : String) : String :=
  match binlist with
  | none => "Неизвестно"
  | some bl =>
    if ¬ (card.toList.all Char.isDigit) ∨ card.length < 6 then "Неизвестно"
    else
      match bl.lookup (binOf card) with
      | some brand => brand
      | none => "Неизвестно"

/-- The columns present after the transform chain (the raw coordinate
columns have been dropped, `Расположение` added). -/
def outColumns : List String :=
  ["Название магазина", "Дата и время", "Расположение", "Категория",
   "Бренд", "Номер карты", "Количество товаров", "Стоимость"]

/-- The row-wise transform chain of `perform_anonymization`: shop names,
datetimes, locations, mask of the two free-text columns, card numbers, and
the two quantile generalizations (whose boundaries are computed from the
whole respective column). -/
def transformedRows (dist : Rat → Rat → Rat)
    (settings : Option (List (String × String)))
    (binlist : Option (List (Nat × String))) (df : List PRow) :
    List ORow :=
  (df.zip ((generalize_column (df.map (fun r => r.qty)) 5).zip
      (generalize_column (df.map (fun r => r.price)) 15))).map (fun x =>
    { shop := anonymize_shop_names settings x.1.shop
      datetime := anonymize_datetime x.1.datetime
      location := anonymize_location dist x.1.lat x.1.lon
      category := "******"
      brand := "******"
      card := anonymize_card_number binlist x.1.card
      qty := x.2.1
      price := x.2.2 })

/-- `perform_anonymization` (anonymize.py lines 386-408): the fixed chain
of column transforms, the re-filtering of the quasi-identifier list
(empty result aborts via `sys.exit(1)`, modelled as an error), and then
the suppression branch.  With `remove_rows = True` the code calls
`remove_rows_by_uniqueness(df, quasi_identifiers, percentage=5)`, passing
the quasi-identifier list positionally into the `percentage` parameter
while also passing `percentage` by keyword, which Python rejects with a
`TypeError` before the callee runs; that exception is the error of this
branch. -/
def perform_anonymization (dist : Rat → Rat → Rat)
    (settings : Option (List (String × String)))
    (binlist : Option (List (Nat × String)))
    (df : List PRow) (quasi_identifiers : List String)
    (remove_rows : Bool) :
    Except String (List ORow × List String) :=
  let rows := transformedRows dist settings binlist df
  let qi := quasi_identifiers.filter (fun c => c ∈ outColumns)
  if qi.isEmpty then
    .error "Ошибка: После анонимизации не осталось квази-идентификаторов для обработки."
  else if remove_rows then
    .error "TypeError: remove_rows_by_uniqueness() got multiple values for argument percentage"
  else
    .ok (rows, qi)

/-- The per-class sizes computed by `identify_bad_k_values`
(anonymize.py lines 355-372): `df.groupby(quasi_identifiers).size()`.
A row is a tuple of quasi-identifier values, `none` being a null; pandas
`groupby` with its default `dropna = True` silently drops every row whose
key contains a null, and the zero-size filter of the source removes
nothing here because only realised keys are listed. -/
def rowKeyValid (k : List (Option α)) : Bool :=
  k.all (fun v => v.isSome)

/-- The list of equivalence-class sizes over the quasi-identifier columns:
one count per distinct fully-non-null key. -/
def identify_bad_k_values_counts (rows : List (List (Option α))) :
    List Nat :=
  let valids := rows.filter rowKeyValid
  valids.dedup.map (fun k => valids.count k)

/-- Ten annotated rows with pairwise distinct uniqueness values, used to
exercise the 50 percent suppression scenario. -/
def dfTen : Df Nat :=
  { rows := [0, 1, 2, 3, 4, 5, 6, 7, 8, 9]
    uniq := some [5, 3, 8, 1, 9, 2, 7, 4, 10, 6] }

/-- The uniqueness column of `dfTen`. -/
def usTen : List Nat := [5, 3, 8, 1, 9, 2, 7, 4, 10, 6]

/-- Ten raw rows in two equivalence classes of sizes 2 and 8. -/
def dfTwoEight : Df Nat :=
  { rows := [0, 0, 1, 1, 1, 1, 1, 1, 1, 1], uniq := none }

/-- The frame left after 10 percent suppression of the annotated
`dfTwoEight`: the first row of the size-2 class is gone, the stale
uniqueness column remains. -/
def dfTwoEightAfter : Df Nat :=
  { rows := [0, 1, 1, 1, 1, 1, 1, 1, 1]
    uniq := some [2, 8, 8, 8, 8, 8, 8, 8, 8] }

/-- Three raw rows in classes of sizes 1 and 2; removing 34 percent deletes
exactly the singleton class. -/
def dfOneTwo : Df Nat :=
  { rows := [0, 1, 1], uniq := none }

/-- Five raw rows in classes of sizes 2 and 3, used to watch the
recomputation of uniqueness after one row of the first class is removed. -/
def dfTwoThree : Df Nat :=
  { rows := [0, 0, 1, 1, 1], uniq := none }

/-- The frame left after 20 percent suppression of the annotated
`dfTwoThree`. -/
def dfTwoThreeAfter : Df Nat :=
  { rows := [0, 1, 1, 1], uniq := some [2, 3, 3, 3] }

/-- An input record whose shop name and card number would need the two
lookup tables. -/
def rowPya : PRow :=
  { shop := "Пятёрочка"
    datetime := some (2023, 5)
    lon := some 30
    lat := some 60
    category := "X"
    brand := "Y"
    card := "1234567890123456"
    qty := some 3
    price := some 100 }

/-- What the transform chain makes of `rowPya` when both lookup tables are
absent: the shop name passes through untouched, the card number is mapped
to the unknown sentinel, and the single-valued numeric columns are
destroyed by the single-boundary cut. -/
def orowPya : ORow :=
  { shop := "Пятёрочка"
    datetime := " 2023, весна"
    location := "До 4 км от Дворцовой площади (Санкт-Петербург)"
    category := "******"
    brand := "******"
    card := "Неизвестно"
    qty := GCell.null
    price := GCell.null }

end Anonymize

namespace Anonymize

variable {α : Type} [DecidableEq α]

instance {ε β : Type} [DecidableEq ε] [DecidableEq β] :
    DecidableEq (Except ε β) := fun a b =>
  match a, b with
  | .error x, .error y => decidable_of_iff (x = y) (by simp)
  | .error _, .ok _ => isFalse (by simp)
  | .ok _, .error _ => isFalse (by simp)
  | .ok x, .ok y => decidable_of_iff (x = y) (by simp)

/- ### Shared helper lemmas -/

lemma dropIdxFrom_map {β γ : Type} (f : β → γ) (R : List Nat) :
    ∀ (i : Nat) (l : List β),
      dropIdxFrom R i (l.map f) = (dropIdxFrom R i l).map f := by
  intro i l
  induction l generalizing i with
  | nil => simp [dropIdxFrom]
  | cons x xs ih =>
    by_cases h : i ∈ R <;> simp [dropIdxFrom, h, ih]

lemma mem_of_mem_dropIdxFrom {β : Type} {R : List Nat} {x : β} :
    ∀ {i : Nat} {l : List β}, x ∈ dropIdxFrom R i l → x ∈ l := by
  intro i l
  induction l generalizing i with
  | nil => simp [dropIdxFrom]
  | cons y ys ih =>
    intro h
    by_cases hy : i ∈ R
    · simp only [dropIdxFrom, if_pos hy] at h
      exact List.mem_cons_of_mem y (ih h)
    · simp only [dropIdxFrom, if_neg hy, List.mem_cons] at h
      rcases h with h | h
      · exact h ▸ List.mem_cons_self y ys
      · exact List.mem_cons_of_mem y (ih h)

lemma count_beq_irrel {β : Type} [DecidableEq β] [inst : BEq β]
    [LawfulBEq β] (a : β) (l : List β) :
    @List.count β inst a l = @List.count β (@instBEqOfDecidableEq β _) a l := by
  unfold List.count
  refine List.countP_congr ?_
  intro x _
  constructor
  · intro hx
    exact decide_eq_true (eq_of_beq hx)
  · intro hx
    exact beq_iff_eq.mpr (of_decide_eq_true hx)

lemma count_map_inj {β γ : Type} [BEq β] [LawfulBEq β] [BEq γ] [LawfulBEq γ]
    (l : List β) (h : β → γ) (hinj : Function.Injective h) (a : β) :
    (l.map h).count (h a) = l.count a := by
  simp only [List.count, List.countP_map]
  refine List.countP_congr ?_
  intro x _
  simp only [Function.comp_apply, beq_iff_eq]
  constructor
  · intro hx
    exact hinj hx
  · intro hx
    rw [hx]

lemma count_column_map_inj {β γ : Type} [BEq β] [LawfulBEq β] [BEq γ]
    [LawfulBEq γ] (h : β → γ) (hinj : Function.Injective h) (l : List β) :
    (l.map h).map (fun k => (l.map h).count k) =
      l.map (fun a => l.count a) := by
  rw [List.map_map]
  refine List.map_congr_left ?_
  intro a _
  exact count_map_inj l h hinj a

lemma zip_self_map {β γ : Type} (l : List β) (g : β → γ) :
    l.zip (l.map g) = l.map (fun a => (a, g a)) := by
  have := List.zip_map' id g l
  simpa using this

lemma uniquenessColumn_none (l : List α) :
    uniquenessColumn (Df.mk l none) = l.map (fun r => l.count r) := by
  unfold uniquenessColumn rowKeys
  simp only
  refine (count_column_map_inj (fun r => (r, (none : Option Nat))) ?_ l)
  intro a b hab
  exact (Prod.mk.injEq _ _ _ _).mp hab |>.1

lemma uniquenessColumn_derived (l : List α) (g : α → Nat) :
    uniquenessColumn (Df.mk l (some (l.map g))) =
      l.map (fun r => l.count r) := by
  unfold uniquenessColumn rowKeys
  simp only [List.map_map]
  have hz : l.zip (l.map (fun a => some (g a))) =
      l.map (fun a => (a, some (g a))) := zip_self_map l _
  rw [show ((fun v => some v) ∘ g) = (fun a => some (g a)) from rfl, hz]
  refine count_column_map_inj (fun a => (a, some (g a))) ?_ l
  intro a b hab
  exact (Prod.mk.injEq _ _ _ _).mp hab |>.1

/-- After annotating a raw frame and suppressing rows, the remaining frame
consists of rows of the original, and its recomputed uniqueness column
(whose grouping key does include the stale uniqueness column) coincides
with the per-row class sizes over the data columns alone. -/
lemma removal_uniqColumn (rows : List α) (p : Rat) (df2 : Df α)
    (h2 : remove_rows_by_uniqueness
        (calculate_row_uniqueness (Df.mk rows none)) p = .ok df2) :
    (∀ r ∈ df2.rows, r ∈ rows) ∧
      uniquenessColumn df2 = df2.rows.map (fun r => df2.rows.count r) := by
  obtain ⟨rows2, uniq2⟩ := df2
  have hcol : uniquenessColumn (Df.mk rows none) =
      rows.map (fun r => rows.count r) := uniquenessColumn_none rows
  unfold remove_rows_by_uniqueness calculate_row_uniqueness at h2
  simp only [Except.ok.injEq, Df.mk.injEq] at h2
  set g : α → Nat := fun r => rows.count r with hg
  set R : List Nat :=
    removedIdx (uniquenessColumn (Df.mk rows none))
      (rows_to_remove rows.length p) with hR
  have hrows : rows2 = dropIdxFrom R 0 rows := h2.1.symm
  have huniq : uniq2 = some (dropIdxFrom R 0 (rows.map g)) := by
    rw [← h2.2]
    simp only [hcol]
  constructor
  · intro r hr
    simp only [hrows] at hr
    exact mem_of_mem_dropIdxFrom hr
  · have hmap : dropIdxFrom R 0 (rows.map g) = rows2.map g := by
      rw [dropIdxFrom_map, ← hrows]
    simp only at huniq ⊢
    rw [huniq, hmap]
    exact uniquenessColumn_derived rows2 g

/- ### Claim theorems -/

/-- C9: full categorical suppression replaces every value of the named
column with the mask token `******`, and masking an already masked column
yields the identical frame (idempotence). -/
theorem mask_fills_column_and_idempotent (df : String → List String)
    (column_name : String) :
    (∀ v ∈ mask df column_name column_name, v = "******")
      ∧ mask (mask df column_name) column_name = mask df column_name := by
  constructor
  · intro v hv
    have heq : mask df column_name column_name
        = (df column_name).map (fun _ => "******") := if_pos rfl
    rw [heq, List.mem_map] at hv
    obtain ⟨_, _, h⟩ := hv
    exact h.symm
  · funext c
    by_cases h : c = column_name
    · subst h
      simp [mask]
    · simp [mask, h]

/-- C5: the claim that `categorize_distance` realises three distance bands
with thresholds matching the band names fails: because the second branch
repeats the `distance <= 6` test, a distance of 5 km lands in the band
named up-to-4-km, a distance of 7 km lands in the band named
beyond-8-km, and the middle band is assigned to no distance at all. -/
theorem categorize_distance_middle_band_unreachable :
    categorize_distance (some 0)
        = "До 4 км от Дворцовой площади (Санкт-Петербург)"
      ∧ categorize_distance (some 5)
          = "До 4 км от Дворцовой площади (Санкт-Петербург)"
      ∧ categorize_distance (some 7)
          = "Более 8 км от Дворцовой площади (Санкт-Петербург)"
      ∧ ∀ d : Option Rat,
          categorize_distance d
            ≠ "Более 4 км, но до 8 км от Дворцовой площади (Санкт-Петербург)" := by
  refine ⟨by decide, by decide, by decide, ?_⟩
  intro d
  cases d with
  | none => decide
  | some q =>
    simp only [categorize_distance]
    by_cases h : q ≤ 6
    · rw [if_pos h]
      decide
    · rw [if_neg h, if_neg h]
      decide

/-- C7: the claim that a column with fewer than 2 valid values is left
unmodified fails for exactly one valid value: the guard of
`generalize_column` only catches the empty case, so the single value 5 is
run through the binning path, whose single-boundary cut maps it to null
instead of leaving it as the number 5. -/
theorem generalize_column_single_value_destroys :
    generalize_column [some 5] 2 = [GCell.null]
      ∧ generalize_column [some 5] 2 ≠ [GCell.num 5] := by
  with_unfolding_all decide

/-- C8: the sum of the equivalence-class sizes equals the number of rows
whose quasi-identifier tuple holds no null (pandas `groupby` drops null
keys); when no quasi-identifier value is null this is the full row
count. -/
theorem class_sizes_sum_counts_nonnull_rows
    (rows : List (List (Option α))) :
    (identify_bad_k_values_counts rows).sum
        = (rows.filter rowKeyValid).length
      ∧ ((∀ k ∈ rows, rowKeyValid k) →
          (identify_bad_k_values_counts rows).sum = rows.length) := by
  have h1 : (identify_bad_k_values_counts rows).sum
      = (rows.filter rowKeyValid).length := by
    simp only [identify_bad_k_values_counts]
    have h2 := List.sum_map_count_dedup_eq_length (rows.filter rowKeyValid)
    rw [← h2]
    congr 1
    refine List.map_congr_left ?_
    intro k _
    exact count_beq_irrel k _
  refine ⟨h1, ?_⟩
  intro hall
  rw [h1, List.filter_eq_self.mpr hall]

/-- C8 witness: on three fully non-null single-column rows the class sizes
sum to the row count 3. -/
theorem class_sizes_sum_counts_nonnull_rows_witness :
    (∀ k ∈ ([[some 0], [some 1], [some 0]] : List (List (Option Nat))),
        rowKeyValid k)
      ∧ (identify_bad_k_values_counts
          ([[some 0], [some 1], [some 0]] : List (List (Option Nat)))).sum
          = 3 := by
  refine ⟨by decide, ?_⟩
  have h := (class_sizes_sum_counts_nonnull_rows
    ([[some 0], [some 1], [some 0]] : List (List (Option Nat)))).2 (by decide)
  simpa using h

/-- C8 counterexample: with one row holding a null quasi-identifier value
the class sizes sum to 1, not to the row count 2, refuting the claim that
rows with null values are included. -/
theorem class_sizes_sum_misses_null_rows :
    (identify_bad_k_values_counts
        ([[some 0], [none]] : List (List (Option Nat)))).sum = 1
      ∧ (identify_bad_k_values_counts
          ([[some 0], [none]] : List (List (Option Nat)))).sum
          ≠ ([[some 0], [none]] : List (List (Option Nat))).length := by
  decide

/-- C10: with `remove_rows = True` the orchestrator never returns a frame:
its call `remove_rows_by_uniqueness(df, quasi_identifiers, percentage=5)`
binds the quasi-identifier list to the `percentage` parameter positionally
while also passing `percentage` by keyword, a `TypeError`; the only other
exit of that branch is the fatal empty-quasi-identifier abort. -/
theorem perform_anonymization_remove_rows_always_fails
    (dist : Rat → Rat → Rat) (settings : Option (List (String × String)))
    (binlist : Option (List (Nat × String))) (df : List PRow)
    (quasi_identifiers : List String) (hqi : quasi_identifiers ≠ []) :
    ∃ msg, perform_anonymization dist settings binlist df
        quasi_identifiers true = .error msg := by
  unfold perform_anonymization
  by_cases h :
      (quasi_identifiers.filter (fun c => c ∈ outColumns)).isEmpty = true
  · refine ⟨"Ошибка: После анонимизации не осталось квази-идентификаторов для обработки.", ?_⟩
    rw [if_pos h]
  · refine ⟨"TypeError: remove_rows_by_uniqueness() got multiple values for argument percentage", ?_⟩
    rw [if_neg h]
    rfl

/-- C10 witness: the suppression branch fails on a concrete one-row frame
with a surviving quasi-identifier. -/
theorem perform_anonymization_remove_rows_always_fails_witness :
    ∃ msg, perform_anonymization (fun _ _ => 0) none none [rowPya]
        ["Расположение"] true = .error msg :=
  perform_anonymization_remove_rows_always_fails (fun _ _ => 0) none none
    [rowPya] ["Расположение"] (by decide)

/-- C4: after the frame has been annotated by `calculate_row_uniqueness`
and shrunk by `remove_rows_by_uniqueness`, recomputing uniqueness yields,
for every remaining record, the size of its equivalence class over the
data columns alone — the stale `uniqueness` values (which the grouping key
of the code does include) cannot influence the result, because they are
constant on every data-column class. -/
theorem recomputed_uniqueness_ignores_stale_column (df : Df α) (p : Rat)
    (df2 : Df α) (h0 : df.uniq = none)
    (h2 : remove_rows_by_uniqueness (calculate_row_uniqueness df) p
        = .ok df2) :
    uniquenessColumn df2 = df2.rows.map (fun r => df2.rows.count r) := by
  obtain ⟨rows, uniq⟩ := df
  simp only at h0
  subst h0
  exact (removal_uniqColumn rows p df2 h2).2

/-- C4 witness: annotating and 20-percent-suppressing the 2+3 frame leaves
a stale column `[2, 3, 3, 3]`, and the recomputation returns the
data-column class sizes `[1, 3, 3, 3]`. -/
theorem recomputed_uniqueness_ignores_stale_column_witness :
    uniquenessColumn dfTwoThreeAfter
      = dfTwoThreeAfter.rows.map (fun r => dfTwoThreeAfter.rows.count r) :=
  recomputed_uniqueness_ignores_stale_column dfTwoThree 20 dfTwoThreeAfter
    rfl (by with_unfolding_all decide)

/-- C1 counterexample: suppressing 10 percent of the annotated 2+8 frame
removes one row of the size-2 class, and the recomputed minimum group size
drops from 2 to 1 — the claimed monotonicity fails. -/
theorem k_anonymity_drops_concrete :
    remove_rows_by_uniqueness (calculate_row_uniqueness dfTwoEight) 10
        = Except.ok dfTwoEightAfter
      ∧ k_anonymity dfTwoEightAfter < k_anonymity dfTwoEight := by
  with_unfolding_all decide

/-- C1 amended: the recomputed minimum group size after suppression is at
least the pre-suppression minimum provided the removal splits no
equivalence class — every class is either removed whole or kept whole
(without that proviso the minimum can drop, see the counterexample). -/
theorem k_anonymity_mono_of_whole_classes (df : Df α) (p : Rat)
    (df2 : Df α) (h0 : df.uniq = none)
    (h2 : remove_rows_by_uniqueness (calculate_row_uniqueness df) p
        = .ok df2)
    (hwhole : ∀ r ∈ df2.rows, df2.rows.count r = df.rows.count r) :
    k_anonymity df ≤ k_anonymity df2 := by
  obtain ⟨rows, uniq⟩ := df
  simp only at h0 hwhole
  subst h0
  obtain ⟨hsub, hcol⟩ := removal_uniqColumn rows p df2 h2
  unfold k_anonymity
  rw [hcol, uniquenessColumn_none]
  refine List.le_minimum_of_forall_le ?_
  intro a ha
  rw [List.mem_map] at ha
  obtain ⟨r, hr, hra⟩ := ha
  have h1 : a = rows.count r := by rw [← hra, hwhole r hr]
  have h2m : a ∈ rows.map (fun x => rows.count x) :=
    List.mem_map.mpr ⟨r, hsub r hr, h1.symm⟩
  exact List.minimum_le_of_mem' h2m

/-- C1 witness: suppressing 34 percent of the annotated 1+2 frame removes
exactly the singleton class, and the minimum group size rises from 1
to 2. -/
theorem k_anonymity_mono_of_whole_classes_witness :
    k_anonymity dfOneTwo ≤ k_anonymity (Df.mk [1, 1] (some [2, 2])) :=
  k_anonymity_mono_of_whole_classes dfOneTwo 34 (Df.mk [1, 1] (some [2, 2]))
    rfl (by with_unfolding_all decide) (by decide)

lemma generalize_column_length (col : List (Option Rat)) (N : Nat) :
    (generalize_column col N).length = col.length := by
  unfold generalize_column
  by_cases h : (col.filterMap id).isEmpty <;> simp [h]

lemma map_fst_comp_zip {β γ δ : Type} (f : β → δ) :
    ∀ (l1 : List β) (l2 : List γ), l1.length ≤ l2.length →
      (l1.zip l2).map (fun x => f x.1) = l1.map f
  | [], _, _ => rfl
  | _ :: _, [], h => by simp at h
  | a :: l1, b :: l2, h => by
    simp only [List.zip_cons_cons, List.map_cons]
    rw [map_fst_comp_zip f l1 l2 (by simpa using h)]

set_option maxRecDepth 4000 in
/-- C6 counterexample: with both lookup tables absent the run does not
abort — on a concrete one-row frame it completes and returns a frame in
which the shop name passed through untransformed while every other
transform did run (card number mapped to the unknown sentinel, location
and datetime generalized, category and brand masked). -/
theorem lookup_absent_run_completes :
    perform_anonymization (fun _ _ => 0) none none [rowPya]
        ["Расположение"] false = Except.ok ([orowPya], ["Расположение"]) := by
  with_unfolding_all decide

/-- C6 amended: when the settings file and the BIN table are both absent,
the run continues instead of aborting: the result is a successfully
transformed frame whose shop column is the untouched input and whose card
column is the constant unknown sentinel. -/
theorem lookup_absent_run_continues (dist : Rat → Rat → Rat)
    (df : List PRow) (qi : List String)
    (h : ((qi.filter (fun c => c ∈ outColumns)).isEmpty = true) → False) :
    perform_anonymization dist none none df qi false
        = .ok (transformedRows dist none none df,
            qi.filter (fun c => c ∈ outColumns))
      ∧ (transformedRows dist none none df).map (fun r => r.shop)
          = df.map (fun r => r.shop)
      ∧ ∀ r ∈ transformedRows dist none none df, r.card = "Неизвестно" := by
  refine ⟨?_, ?_, ?_⟩
  · unfold perform_anonymization
    rw [if_neg h]
    rfl
  · unfold transformedRows
    rw [List.map_map]
    have hlen : df.length
        ≤ ((generalize_column (df.map (fun r => r.qty)) 5).zip
            (generalize_column (df.map (fun r => r.price)) 15)).length := by
      rw [List.length_zip, generalize_column_length, generalize_column_length,
        List.length_map, List.length_map]
      simp
    exact map_fst_comp_zip (fun r => r.shop) df _ hlen
  · intro r hr
    unfold transformedRows at hr
    rw [List.mem_map] at hr
    obtain ⟨x, _, hx⟩ := hr
    rw [← hx]
    rfl


/-- C6 witness for the amended claim, at the concrete one-row frame. -/
theorem lookup_absent_run_continues_witness :
    perform_anonymization (fun _ _ => 0) none none [rowPya]
          ["Расположение"] false
        = .ok (transformedRows (fun _ _ => 0) none none [rowPya],
            ["Расположение"].filter (fun c => c ∈ outColumns))
      ∧ (transformedRows (fun _ _ => 0) none none [rowPya]).map
            (fun r => r.shop)
          = [rowPya].map (fun r => r.shop)
      ∧ ∀ r ∈ transformedRows (fun _ _ => 0) none none [rowPya],
          r.card = "Неизвестно" :=
  lookup_absent_run_continues (fun _ _ => 0) [rowPya] ["Расположение"]
    (by decide)

lemma rows_to_remove_le (n : Nat) (p : Rat) (hp : p ≤ 100) :
    rows_to_remove n p ≤ n := by
  unfold rows_to_remove
  rw [Int.toNat_le]
  have h2 : p / 100 ≤ 1 := by
    rw [div_le_one (by norm_num : (0 : Rat) < 100)]
    exact hp
  have h1 : (n : Rat) * (p / 100) ≤ (n : Rat) := by
    calc (n : Rat) * (p / 100) ≤ (n : Rat) * 1 :=
          mul_le_mul_of_nonneg_left h2 (by positivity)
      _ = (n : Rat) := mul_one _
  calc ⌊(n : Rat) * (p / 100)⌋ ≤ ⌊(n : Rat)⌋ := Int.floor_mono h1
    _ = (n : Int) := Int.floor_natCast n

lemma dropIdxFrom_eq_filter {β : Type} (R : List Nat) :
    ∀ (i : Nat) (l : List β),
      dropIdxFrom R i l
        = ((l.enumFrom i).filter
            (fun x => !(decide (x.1 ∈ R)))).map Prod.snd := by
  intro i l
  induction l generalizing i with
  | nil => rfl
  | cons x xs ih =>
    by_cases h : i ∈ R
    · simp [dropIdxFrom, h, List.enumFrom, ih]
    · simp [dropIdxFrom, h, List.enumFrom, ih]

lemma sortedByUniq_perm (us : List Nat) :
    (sortedByUniq us).Perm us.enum :=
  List.perm_insertionSort uniqLe us.enum

lemma sortedByUniq_isSorted (us : List Nat) :
    IsSortedByUniq us (sortedByUniq us) := by
  refine ⟨sortedByUniq_perm us, ?_⟩
  have h := List.sorted_insertionSort uniqLe us.enum
  exact List.Pairwise.imp (fun hab => by
    rcases hab with h1 | ⟨h1, _⟩
    · exact le_of_lt h1
    · exact le_of_eq h1) h

lemma remove_rows_by_uniqueness_eq_any (df : Df α) (p : Rat)
    (us : List Nat) (hu : df.uniq = some us) :
    remove_rows_by_uniqueness df p
      = remove_rows_by_uniqueness_any df p (sortedByUniq us) := by
  obtain ⟨rows, uniq⟩ := df
  simp only at hu
  subst hu
  rfl

lemma perm_fst_nodup (us : List Nat) {perm : List (Nat × Nat)}
    (hp : perm.Perm us.enum) : (perm.map Prod.fst).Nodup := by
  have h1 : (perm.map Prod.fst).Perm (us.enum.map Prod.fst) :=
    hp.map Prod.fst
  rw [h1.nodup_iff, List.enum_map_fst]
  exact List.nodup_range _

lemma removed_perm_any (us : List Nat) {perm : List (Nat × Nat)}
    (hp : perm.Perm us.enum) (k : Nat) :
    (us.enum.filter
        (fun x => decide (x.1 ∈ (perm.take k).map (fun y => y.1)))).Perm
      (perm.take k) := by
  have h1 : (us.enum.filter
        (fun x => decide (x.1 ∈ (perm.take k).map (fun y => y.1)))).Perm
      (perm.filter
        (fun x => decide (x.1 ∈ (perm.take k).map (fun y => y.1)))) :=
    (hp.symm.filter _)
  refine h1.trans ?_
  have hsplit : perm = perm.take k ++ perm.drop k :=
    (List.take_append_drop k perm).symm
  have hnd := perm_fst_nodup us hp
  rw [hsplit, List.map_append, List.nodup_append] at hnd
  rw [show perm.filter
        (fun x => decide (x.1 ∈ (perm.take k).map (fun y => y.1)))
      = (perm.take k ++ perm.drop k).filter
        (fun x => decide (x.1 ∈ (perm.take k).map (fun y => y.1)))
    from by rw [← hsplit]]
  rw [List.filter_append]
  have htake : ((perm.take k).filter
      (fun x => decide (x.1 ∈ (perm.take k).map (fun y => y.1))))
      = perm.take k := by
    rw [List.filter_eq_self]
    intro x hx
    exact decide_eq_true (List.mem_map_of_mem (fun y => y.1) hx)
  have hdrop : ((perm.drop k).filter
      (fun x => decide (x.1 ∈ (perm.take k).map (fun y => y.1)))) = [] := by
    rw [List.filter_eq_nil_iff]
    intro x hx hc
    simp only [decide_eq_true_eq] at hc
    have hx1 : x.1 ∈ (perm.drop k).map Prod.fst :=
      List.mem_map_of_mem Prod.fst hx
    exact absurd hx1 (hnd.2.2 hc)
  rw [htake, hdrop, List.append_nil]

lemma removed_filter_length_any (us : List Nat) {perm : List (Nat × Nat)}
    (hp : perm.Perm us.enum) (k : Nat) (hk : k ≤ us.length) :
    (us.enum.filter
        (fun x => decide (x.1 ∈ (perm.take k).map (fun y => y.1)))).length
      = k := by
  rw [(removed_perm_any us hp k).length_eq, List.length_take]
  have hl : perm.length = us.length := by
    rw [hp.length_eq, List.enum_length]
  rw [hl]
  exact min_eq_left hk

lemma enum_filter_fst_length {β : Type} (l : List β) (p : Nat → Bool) :
    ((l.enum).filter (fun x => p x.1)).length
      = ((List.range l.length).filter p).length := by
  rw [← List.enum_map_fst l, List.filter_map, List.length_map]
  rfl

lemma dropIdxFrom_removed_length_any {β : Type} (us : List Nat)
    {perm : List (Nat × Nat)} (hp : perm.Perm us.enum) (k : Nat)
    (l : List β) (hlen : l.length = us.length) (hk : k ≤ us.length) :
    (dropIdxFrom ((perm.take k).map (fun y => y.1)) 0 l).length
      = l.length - k := by
  rw [dropIdxFrom_eq_filter, List.length_map]
  have he : l.enumFrom 0 = l.enum := rfl
  rw [he]
  have hpart := List.length_eq_length_filter_add
    (l := l.enum)
    (fun x => decide (x.1 ∈ (perm.take k).map (fun y => y.1)))
  have hq : ((l.enum).filter
      (fun x => decide (x.1 ∈ (perm.take k).map (fun y => y.1)))).length
      = k := by
    rw [enum_filter_fst_length l
        (fun i => decide (i ∈ (perm.take k).map (fun y => y.1))), hlen,
      ← enum_filter_fst_length us
        (fun i => decide (i ∈ (perm.take k).map (fun y => y.1)))]
    exact removed_filter_length_any us hp k hk
  have hlen2 : l.enum.length = l.length := List.enum_length
  rw [hq, hlen2] at hpart
  omega

lemma removed_le_kept (us : List Nat) {perm : List (Nat × Nat)}
    (hs : IsSortedByUniq us perm) (k : Nat) {i j : Nat}
    (hi : i ∈ (perm.take k).map (fun y => y.1)) (hjlt : j < us.length)
    (hj : j ∉ (perm.take k).map (fun y => y.1)) :
    us.getD i 0 ≤ us.getD j 0 := by
  obtain ⟨hp, hsort⟩ := hs
  obtain ⟨x, hxt, hxi⟩ := List.mem_map.mp hi
  have hyenum : (j, us.getD j 0) ∈ us.enum := by
    rw [List.mem_enum_iff_getElem?]
    show us[j]? = some (us.getD j 0)
    rw [List.getD_eq_getElem us 0 hjlt]
    exact List.getElem?_eq_getElem hjlt
  have hyperm : (j, us.getD j 0) ∈ perm := hp.mem_iff.mpr hyenum
  have hynot : (j, us.getD j 0) ∉ perm.take k := by
    intro hc
    exact hj (List.mem_map.mpr ⟨_, hc, rfl⟩)
  have hydrop : (j, us.getD j 0) ∈ perm.drop k := by
    have hm : (j, us.getD j 0) ∈ perm.take k ++ perm.drop k := by
      rw [List.take_append_drop]
      exact hyperm
    rcases List.mem_append.mp hm with h | h
    · exact absurd h hynot
    · exact h
  have hxenum : x ∈ us.enum := hp.subset (List.mem_of_mem_take hxt)
  have hx2 : us[x.1]? = some x.2 :=
    (List.mem_enum_iff_getElem?).mp hxenum
  obtain ⟨hxlt, hxe⟩ := List.getElem?_eq_some.mp hx2
  have hgi : us.getD i 0 = x.2 := by
    rw [← hxi, List.getD_eq_getElem us 0 hxlt]
    exact hxe
  have hpw : List.Pairwise (fun a b : Nat × Nat => a.2 ≤ b.2)
      (perm.take k ++ perm.drop k) := by
    rw [List.take_append_drop]
    exact hsort
  have hrel : x.2 ≤ (j, us.getD j 0).2 :=
    (List.pairwise_append.mp hpw).2.2 x hxt _ hydrop
  rw [hgi]
  exact hrel

/-- C2 counterexample: the stable tie order asserted by the claim is not
guaranteed by the code.  `df.sort_values(by = uniqueness)` uses the
default quicksort, which the pandas documentation marks as not stable, so
every permutation of the indexed rows that is non-decreasing in
uniqueness is an admissible sort result.  On a two-row frame whose rows
are distinct but share their uniqueness value, the reversed order is
admissible, and under it the 50 percent removal drops the later row and
keeps the row 10 — while the claimed earlier-rows-first tie-breaking
demands that the first row be dropped and the row 20 be kept. -/
theorem remove_rows_tie_order_unspecified :
    IsSortedByUniq [1, 1] [(1, 1), (0, 1)]
      ∧ remove_rows_by_uniqueness_any (Df.mk [10, 20] (some [1, 1])) 50
            [(1, 1), (0, 1)]
          = Except.ok (Df.mk [10] (some [1]))
      ∧ Df.mk [10] (some [1]) ≠ Df.mk ([20] : List Nat) (some [1]) := by
  refine ⟨⟨?_, by decide⟩, ?_, by decide⟩
  · show List.Perm [(1, 1), (0, 1)] ([1, 1].enum)
    exact List.Perm.swap (0, 1) (1, 1) []
  · with_unfolding_all decide

/-- C2 amended: whichever admissible sorted order the unstable
`sort_values` returns, `remove_rows_by_uniqueness` on an annotated frame
succeeds, removes exactly `int(row_count * p / 100)` rows, and every
removed row's uniqueness value is at most every kept row's — the removed
rows are rows of minimal uniqueness, but which rows of a tie go is
implementation-defined. -/
theorem remove_rows_by_uniqueness_any_spec (df : Df α) (p : Rat)
    (us : List Nat) (perm : List (Nat × Nat)) (hu : df.uniq = some us)
    (hsorted : IsSortedByUniq us perm)
    (hlen : us.length = df.rows.length) (hp0 : 0 ≤ p) (hp1 : p ≤ 100) :
    ∃ df2, remove_rows_by_uniqueness_any df p perm = .ok df2
      ∧ df2.rows.length
          = df.rows.length - rows_to_remove df.rows.length p
      ∧ ∀ i ∈ (perm.take (rows_to_remove df.rows.length p)).map
            (fun x => x.1),
          ∀ j < df.rows.length,
            j ∉ (perm.take (rows_to_remove df.rows.length p)).map
                (fun x => x.1) →
              us.getD i 0 ≤ us.getD j 0 := by
  obtain ⟨rows, uniq⟩ := df
  simp only at hu hlen ⊢
  subst hu
  have hk : rows_to_remove rows.length p ≤ us.length := by
    rw [hlen]
    exact rows_to_remove_le rows.length p hp1
  refine ⟨Df.mk
      (dropIdxFrom ((perm.take (rows_to_remove rows.length p)).map
        (fun (x : Nat × Nat) => x.1)) 0 rows)
      (some (dropIdxFrom ((perm.take (rows_to_remove rows.length p)).map
        (fun (x : Nat × Nat) => x.1)) 0 us)), rfl, ?_, ?_⟩
  · exact dropIdxFrom_removed_length_any us hsorted.1 _ rows hlen.symm hk
  · intro i hi j hj hjn
    exact removed_le_kept us hsorted _ hi (by rw [hlen]; exact hj) hjn

/-- C2 witness: the 50 percent scenario on the annotated ten-row frame,
instantiated at the admissible sorted order that `sortedByUniq`
realises — five rows are removed and every removed row's uniqueness is at
most every kept row's. -/
theorem remove_rows_by_uniqueness_any_spec_witness :
    ∃ df2, remove_rows_by_uniqueness_any dfTen 50 (sortedByUniq usTen)
          = .ok df2
      ∧ df2.rows.length
          = dfTen.rows.length - rows_to_remove dfTen.rows.length 50
      ∧ ∀ i ∈ ((sortedByUniq usTen).take
            (rows_to_remove dfTen.rows.length 50)).map (fun x => x.1),
          ∀ j < dfTen.rows.length,
            j ∉ ((sortedByUniq usTen).take
                (rows_to_remove dfTen.rows.length 50)).map (fun x => x.1) →
              usTen.getD i 0 ≤ usTen.getD j 0 :=
  remove_rows_by_uniqueness_any_spec dfTen 50 usTen (sortedByUniq usTen)
    rfl (sortedByUniq_isSorted usTen) rfl (by norm_num) (by norm_num)

lemma ensureFrom_chain (l : List Rat) :
    ∀ prev : Rat, List.Chain (· < ·) prev (ensureFrom prev l) := by
  induction l with
  | nil =>
    intro prev
    exact List.Chain.nil
  | cons y ys ih =>
    intro prev
    by_cases h : y ≤ prev
    · rw [show ensureFrom prev (y :: ys)
          = (prev + 1 / 1000000) :: ensureFrom (prev + 1 / 1000000) ys
        from by simp [ensureFrom, h]]
      exact List.Chain.cons (by linarith) (ih _)
    · rw [show ensureFrom prev (y :: ys) = y :: ensureFrom y ys
        from by simp [ensureFrom, h]]
      exact List.Chain.cons (lt_of_not_le h) (ih _)

lemma ensure_increasing_pairwise (l : List Rat) :
    (ensure_increasing l).Pairwise (· < ·) := by
  cases l with
  | nil => simp [ensure_increasing]
  | cons x xs =>
    rw [show ensure_increasing (x :: xs) = x :: ensureFrom x xs from rfl]
    exact List.chain_iff_pairwise.mp (ensureFrom_chain xs x)

lemma clampHead_pairwise (mn : Rat) {l : List Rat}
    (h : l.Pairwise (· < ·)) : (clampHead mn l).Pairwise (· < ·) := by
  cases l with
  | nil => simp [clampHead]
  | cons a rest =>
    rw [List.pairwise_cons] at h
    by_cases hc : mn < a
    · rw [show clampHead mn (a :: rest) = mn :: rest
        from by simp [clampHead, hc]]
      rw [List.pairwise_cons]
      exact ⟨fun b hb => lt_trans hc (h.1 b hb), h.2⟩
    · rw [show clampHead mn (a :: rest) = a :: rest
        from by simp [clampHead, hc]]
      rw [List.pairwise_cons]
      exact h

lemma clampLast_mem (mx : Rat) : ∀ (l : List Rat) (c : Rat),
    c ∈ clampLast mx l → c ∈ l ∨ (∃ y ∈ l, y < mx ∧ c = mx)
  | [], c, hc => by simp [clampLast] at hc
  | [a], c, hc => by
    simp only [clampLast, List.mem_singleton] at hc
    by_cases h : a < mx
    · rw [if_pos h] at hc
      exact Or.inr ⟨a, List.mem_singleton_self a, h, hc⟩
    · rw [if_neg h] at hc
      exact Or.inl (by simp [hc])
  | a :: b :: rest, c, hc => by
    rw [show clampLast mx (a :: b :: rest)
        = a :: clampLast mx (b :: rest) from rfl, List.mem_cons] at hc
    rcases hc with hc | hc
    · exact Or.inl (by simp [hc])
    · rcases clampLast_mem mx (b :: rest) c hc with h | ⟨y, hy, hlt, he⟩
      · exact Or.inl (List.mem_cons_of_mem a h)
      · exact Or.inr ⟨y, List.mem_cons_of_mem a hy, hlt, he⟩

lemma clampLast_pairwise (mx : Rat) : ∀ {l : List Rat},
    l.Pairwise (· < ·) → (clampLast mx l).Pairwise (· < ·)
  | [], _ => by simp [clampLast]
  | [a], _ => by
    by_cases h : a < mx <;> simp [clampLast, h]
  | a :: b :: rest, h => by
    rw [List.pairwise_cons] at h
    rw [show clampLast mx (a :: b :: rest)
        = a :: clampLast mx (b :: rest) from rfl, List.pairwise_cons]
    refine ⟨?_, clampLast_pairwise mx h.2⟩
    intro c hc
    rcases clampLast_mem mx (b :: rest) c hc with hm | ⟨y, hy, hlt, he⟩
    · exact h.1 c hm
    · rw [he]
      exact lt_trans (h.1 y hy) hlt

lemma ensureFrom_length (l : List Rat) :
    ∀ prev, (ensureFrom prev l).length = l.length := by
  induction l with
  | nil => intro prev; rfl
  | cons y ys ih => intro prev; simp [ensureFrom, ih]

lemma ensure_increasing_length (l : List Rat) :
    (ensure_increasing l).length = l.length := by
  cases l <;> simp [ensure_increasing, ensureFrom_length]

lemma clampHead_length (mn : Rat) (l : List Rat) :
    (clampHead mn l).length = l.length := by
  cases l <;> simp [clampHead]

lemma clampLast_length (mx : Rat) :
    ∀ l : List Rat, (clampLast mx l).length = l.length
  | [] => rfl
  | [_] => by simp [clampLast]
  | a :: b :: rest => by
    rw [show clampLast mx (a :: b :: rest)
        = a :: clampLast mx (b :: rest) from rfl]
    simp [clampLast_length mx (b :: rest)]

lemma clampLast_ne_nil (mx : Rat) {l : List Rat} (h : l ≠ []) :
    clampLast mx l ≠ [] := by
  intro hc
  apply h
  have hl := clampLast_length mx l
  rw [hc] at hl
  exact List.length_eq_zero.mp hl.symm

lemma clampHead_headD_le (mn : Rat) {l : List Rat} (h : l ≠ []) :
    (clampHead mn l).headD 0 ≤ mn := by
  cases l with
  | nil => exact absurd rfl h
  | cons a rest =>
    by_cases hc : mn < a
    · simp [clampHead, hc]
    · simp only [clampHead, if_neg hc, List.headD_cons]
      exact le_of_not_lt hc

lemma getLastD_irrel {l : List Rat} (h : l ≠ []) (d1 d2 : Rat) :
    l.getLastD d1 = l.getLastD d2 := by
  rw [List.getLastD_eq_getLast?, List.getLastD_eq_getLast?]
  cases hgl : l.getLast? with
  | none =>
    rw [List.getLast?_eq_none_iff] at hgl
    exact absurd hgl h
  | some x => simp

lemma clampLast_getLastD_ge (mx : Rat) :
    ∀ {l : List Rat}, l ≠ [] → mx ≤ (clampLast mx l).getLastD 0
  | [], h => absurd rfl h
  | [a], _ => by
    rw [show (clampLast mx [a]).getLastD 0
        = if a < mx then mx else a from rfl]
    by_cases h : a < mx
    · rw [if_pos h]
    · rw [if_neg h]
      exact le_of_not_lt h
  | _ :: b :: rest, _ => by
    rw [show clampLast mx (_ :: b :: rest)
        = _ :: clampLast mx (b :: rest) from rfl, List.getLastD_cons]
    have hne : clampLast mx (b :: rest) ≠ [] :=
      clampLast_ne_nil mx (by simp)
    rw [getLastD_irrel hne _ 0]
    exact clampLast_getLastD_ge mx (by simp)

lemma quantile_points_length (valid : List Rat) (N : Nat) :
    (quantile_points valid N).length = N + 1 := by
  unfold quantile_points
  rw [List.length_map, List.length_range]

lemma preClamp_ne_nil (valid : List Rat) (N : Nat) :
    ensure_increasing
      (sortedDedup (beautify_boundaries (quantile_points valid N)))
      ≠ [] := by
  intro hc
  have hlen := congrArg List.length hc
  rw [ensure_increasing_length] at hlen
  unfold sortedDedup at hlen
  rw [List.length_insertionSort] at hlen
  have hd : (beautify_boundaries (quantile_points valid N)).dedup = [] :=
    List.length_eq_zero.mp hlen
  rw [List.dedup_eq_nil] at hd
  have := congrArg List.length hd
  rw [show (beautify_boundaries (quantile_points valid N)).length
      = N + 1 from by
    unfold beautify_boundaries
    rw [List.length_map, quantile_points_length]] at this
  simp at this

lemma boundaries_of_ne_nil (valid : List Rat) (N : Nat) :
    boundaries_of valid N ≠ [] := by
  unfold boundaries_of
  apply clampLast_ne_nil
  intro hc
  have := congrArg List.length hc
  rw [clampHead_length] at this
  exact preClamp_ne_nil valid N (List.length_eq_zero.mp this)

lemma boundaries_of_length_le (valid : List Rat) (N : Nat) :
    (boundaries_of valid N).length ≤ N + 1 := by
  unfold boundaries_of
  rw [clampLast_length, clampHead_length, ensure_increasing_length]
  calc (sortedDedup (beautify_boundaries
        (quantile_points valid N))).length
      ≤ (beautify_boundaries (quantile_points valid N)).length := by
        unfold sortedDedup
        rw [List.length_insertionSort]
        exact (List.dedup_sublist _).length_le
    _ = (quantile_points valid N).length := by
        unfold beautify_boundaries
        rw [List.length_map]
    _ = N + 1 := quantile_points_length valid N

/-- C3 amended: the boundary list built inside `generalize_column` is
always strictly increasing, and has at most `N + 1` entries — but not
always exactly `N + 1`, because beautification can collapse distinct
quantile points and deduplication then shortens the list; coverage of
`[min, max]` by the first and last entries holds whenever the list keeps
at least two entries (a one-entry list can be clamped past the minimum,
see the counterexample). -/
theorem boundaries_invariant (valid : List Rat) (N : Nat)
    (hv : 2 ≤ valid.length) (hN : 1 ≤ N) :
    (boundaries_of valid N).Pairwise (· < ·)
      ∧ (boundaries_of valid N).length ≤ N + 1
      ∧ (2 ≤ (boundaries_of valid N).length →
          (boundaries_of valid N).headD 0 ≤ listMin valid
            ∧ listMax valid ≤ (boundaries_of valid N).getLastD 0) := by
  refine ⟨?_, boundaries_of_length_le valid N, ?_⟩
  · unfold boundaries_of
    exact clampLast_pairwise _
      (clampHead_pairwise _ (ensure_increasing_pairwise _))
  · intro h2
    have hEne := preClamp_ne_nil valid N
    have hCne : clampHead (listMin valid)
        (ensure_increasing (sortedDedup
          (beautify_boundaries (quantile_points valid N)))) ≠ [] := by
      intro hc
      have := congrArg List.length hc
      rw [clampHead_length] at this
      exact hEne (List.length_eq_zero.mp this)
    constructor
    · have hlen2 : 2 ≤ (clampHead (listMin valid)
          (ensure_increasing (sortedDedup
            (beautify_boundaries (quantile_points valid N))))).length := by
        have := h2
        unfold boundaries_of at this
        rw [clampLast_length] at this
        exact this
      obtain ⟨a, b, rest, hab⟩ : ∃ a b rest,
          clampHead (listMin valid)
            (ensure_increasing (sortedDedup
              (beautify_boundaries (quantile_points valid N))))
            = a :: b :: rest := by
        match hcl : clampHead (listMin valid)
            (ensure_increasing (sortedDedup
              (beautify_boundaries (quantile_points valid N)))) with
        | [] =>
          rw [hcl] at hlen2
          simp at hlen2
        | [a] =>
          rw [hcl] at hlen2
          simp at hlen2
        | a :: b :: rest => exact ⟨a, b, rest, rfl⟩
      have hhd := clampHead_headD_le (listMin valid) hEne
      unfold boundaries_of
      rw [hab]
      rw [show (clampLast (listMax valid) (a :: b :: rest)).headD 0
          = a from rfl]
      rw [hab] at hhd
      simpa using hhd
    · unfold boundaries_of
      exact clampLast_getLastD_ge (listMax valid) hCne

/-- C3 counterexample: for the two valid values 10 and 12 with one target
category, beautification collapses both quantile points to 10 and the
final clamp rewrites the single remaining boundary to 12 — the boundary
list is `[12]`, which has one entry instead of `N + 1 = 2` and no longer
reaches down to the minimum 10. -/
theorem boundaries_invariant_fails_concrete :
    boundaries_of [10, 12] 1 = [12]
      ∧ ((boundaries_of [10, 12] 1).length = 1 + 1
            ∧ (boundaries_of [10, 12] 1).headD 0 ≤ listMin [10, 12]
              → False) := by
  with_unfolding_all decide

/-- C3 witness: the numeric column `[1, 2, 3, 4, 100]` with two target
categories keeps all three boundaries `[1, 3, 100]`, so the strict
increase, the length bound and the coverage of `[1, 100]` are all
visible. -/
theorem boundaries_invariant_witness :
    (boundaries_of [1, 2, 3, 4, 100] 2).Pairwise (· < ·)
      ∧ (boundaries_of [1, 2, 3, 4, 100] 2).length ≤ 2 + 1
      ∧ (2 ≤ (boundaries_of [1, 2, 3, 4, 100] 2).length →
          (boundaries_of [1, 2, 3, 4, 100] 2).headD 0
              ≤ listMin [1, 2, 3, 4, 100]
            ∧ listMax [1, 2, 3, 4, 100]
                ≤ (boundaries_of [1, 2, 3, 4, 100] 2).getLastD 0) :=
  boundaries_invariant [1, 2, 3, 4, 100] 2 (by norm_num) (by norm_num)

end Anonymize

